import Mathlib

/-!
Shallow embedding of `pkg/gotemplate/new.go` from brumhard/go-template.

The file models the option-resolution pipeline (file-sourced and
interactive), the project-generation entry point `InitNewProject` with its
deferred best-effort rollback, and the post-generation pruning pass
`postHook`, together with the surrounding data model.

Go dynamic values of type `string`/`bool`/`int` (held in `interface{}`
slots) are modelled by the closed sum `Value`.  Go maps keyed by option
name are modelled by association lists with map-style insert/lookup.
Filesystem state is modelled by an association list from absolute path to
entry, with failure injection for the operations `new.go` performs.
-/

namespace GoTpl

/-- A dynamically typed option value: Go `interface{}` restricted to the
three types the schema uses (`string`, `bool`, `int`). -/
inductive Value where
  | str (s : String)
  | bool (b : Bool)
  | int (n : Int)
deriving DecidableEq, Repr

/-- The runtime type of a `Value`, mirroring `reflect.TypeOf`. -/
inductive VType where
  | str
  | bool
  | int
deriving DecidableEq, Repr

def Value.vtype : Value → VType
  | .str _ => .str
  | .bool _ => .bool
  | .int _ => .int

/-- `reflect.Type.Name()` for the three value types. -/
def VType.name : VType → String
  | .str => "string"
  | .bool => "bool"
  | .int => "int"

/-- `reflect.ValueOf(val).IsZero()` for the three value types. -/
def Value.isZero : Value → Bool
  | .str s => s = ""
  | .bool b => b = false
  | .int n => n = 0

/-- The errors surfaced by `new.go`: the four sentinel errors, the
structured `ErrTypeMismatch`, and opaque errors from the filesystem,
template engine, `strconv` parsing and external bootstrap commands.
Wrapping context (`errors.Wrap`) is carried in the payload strings. -/
inductive GoError where
  | alreadyExists (dir : String)
  | parameterNotSet (name : String)
  | malformedInput (msg : String)
  | parameterSet (name : String)
  | typeMismatch (expected actual : String)
  | fsError (op p : String)
  | renderError (msg : String)
  | parseError (s : String)
  | externalError (cmd : String)
deriving DecidableEq, Repr

/-- `OptionNameToValue`: a Go `map[string]interface{}` keyed by option
name, as an association list. -/
def OptionNameToValue := List (String × Value)
deriving DecidableEq, Repr

/-- Map lookup (`val, ok := m[k]`). -/
def OptionNameToValue.lookup (m : OptionNameToValue) (k : String) : Option Value :=
  match m with
  | [] => none
  | (k', v) :: rest => if k' = k then some v else OptionNameToValue.lookup rest k

/-- Map insert (`m[k] = v`): replaces an existing binding, else appends. -/
def OptionNameToValue.insert (m : OptionNameToValue) (k : String) (v : Value) :
    OptionNameToValue :=
  match m with
  | [] => [(k, v)]
  | (k', v') :: rest =>
    if k' = k then (k, v) :: rest else (k', v') :: OptionNameToValue.insert rest k v

/-- `OptionValues`: resolved values for base options plus, per extension
category, a nested name-to-value map. -/
structure OptionValues where
  base : OptionNameToValue
  extensions : List (String × OptionNameToValue)
deriving DecidableEq, Repr

/-- `NewOptionValues()`: empty base map, empty extensions map. -/
def NewOptionValues : OptionValues := ⟨[], []⟩

/-- Map lookup for the extensions map. -/
def extFind (m : List (String × OptionNameToValue)) (k : String) :
    Option OptionNameToValue :=
  match m with
  | [] => none
  | (k', v) :: rest => if k' = k then some v else extFind rest k

/-- Lookup of a category's map in `OptionValues.Extensions`;
a missing category behaves as the empty (nil) map, as in Go. -/
def OptionValues.extLookup (vals : OptionValues) (cat : String) : OptionNameToValue :=
  match extFind vals.extensions cat with
  | some m => m
  | none => []

/-- Map insert for the extensions map. -/
def extInsert (m : List (String × OptionNameToValue)) (k : String)
    (v : OptionNameToValue) : List (String × OptionNameToValue) :=
  match m with
  | [] => [(k, v)]
  | (k', v') :: rest =>
    if k' = k then (k, v) :: rest else (k', v') :: extInsert rest k v

/-- One schema option.

Modelled from the spec: the `option` package defining the `Option` type is
not under `src/`; `new.go` only calls its methods.  Following the spec's
data model, an option carries a name, a lazily resolved default (a
function of the values resolved so far, since defaults may be templated),
a validation predicate returning an error message or accepting, a
`DependsOn` list of option names for dependency gating, and `Files.Add` /
`Files.Remove` path lists driving the pruning pass. -/
structure Opt where
  name : String
  default : OptionValues → Value
  validate : Value → Option String
  dependsOn : List String
  filesAdd : List String
  filesRemove : List String

/-- Lookup of an option name anywhere in the resolved values (base map
first, then each extension category's map in order). -/
def OptionValues.anyLookup (vals : OptionValues) (k : String) : Option Value :=
  match vals.base.lookup k with
  | some v => some v
  | none =>
    let rec go : List (String × OptionNameToValue) → Option Value
      | [] => none
      | (_, m) :: rest =>
        match m.lookup k with
        | some v => some v
        | none => go rest
    go vals.extensions

/-- `Option.ShouldDisplay`.

Modelled from the spec: an option is displayable iff no name in its
`DependsOn` list resolves to the boolean `false`; a dependency that
resolves to a non-boolean value, or that is not resolved at all, imposes
no constraint (the spec's deliberate leniency). -/
def Opt.shouldDisplay (o : Opt) (vals : OptionValues) : Bool :=
  o.dependsOn.all fun dep =>
    match vals.anyLookup dep with
    | some (.bool b) => b
    | _ => true

/-- A category of extension options (`options.Extensions` element). -/
structure Category where
  name : String
  options : List Opt

/-- The option schema handed to `GT`: base options plus extension
categories. -/
structure Options where
  base : List Opt
  extensions : List Category

/-! ## File-sourced loading (`LoadConfigValuesFromFile`, lines 54-115)

`os.ReadFile` and `yaml.UnmarshalStrict` are external; the embedding
starts from the unmarshalled `OptionValues` document and models the
validation loops of lines 67-91. -/

/-- `validateFileOption` (new.go lines 95-115): type check of the value
against the resolved default's type, then the option's `Validate`
predicate, then the dependency gate (`ShouldDisplay`). -/
def validateFileOption (o : Opt) (v : Value) (vals : OptionValues) : Option GoError :=
  if v.vtype ≠ (o.default vals).vtype then
    some (.typeMismatch (o.default vals).vtype.name v.vtype.name)
  else
    match o.validate v with
    | some msg => some (.malformedInput (o.name ++ ": " ++ msg))
    | none =>
      if !o.shouldDisplay vals then some (.parameterSet o.name) else none

/-- The base-option loop of `LoadConfigValuesFromFile` (lines 67-76):
every base option must be present and non-zero in the document's base
map, and must pass `validateFileOption`; the first failure aborts. -/
def checkBaseOptions : List Opt → OptionValues → Option GoError
  | [], _ => none
  | o :: rest, vals =>
    match vals.base.lookup o.name with
    | none => some (.parameterNotSet o.name)
    | some v =>
      if v.isZero then some (.parameterNotSet o.name)
      else
        match validateFileOption o v vals with
        | some e => some e
        | none => checkBaseOptions rest vals

/-- The inner extension-option loop of `LoadConfigValuesFromFile`
(lines 79-88): note that the value is looked up in the document's BASE
map (`optionValues.Base[option.Name()]`), an absent value skips the
option, a present one is validated with `validateFileOption`. -/
def checkCatOptions : List Opt → OptionValues → Option GoError
  | [], _ => none
  | o :: rest, vals =>
    match vals.base.lookup o.name with
    | none => checkCatOptions rest vals
    | some v =>
      match validateFileOption o v vals with
      | some e => some e
      | none => checkCatOptions rest vals

/-- The outer extension loop of `LoadConfigValuesFromFile` (lines 78-89). -/
def checkExtOptions : List Category → OptionValues → Option GoError
  | [], _ => none
  | cat :: rest, vals =>
    match checkCatOptions cat.options vals with
    | some e => some e
    | none => checkExtOptions rest vals

/-- `LoadConfigValuesFromFile` after unmarshalling (lines 67-91): run the
base checks, then the extension checks, and on success return the
unmarshalled document itself unchanged. -/
def loadConfigValues (opts : Options) (vals : OptionValues) : Except GoError OptionValues :=
  match checkBaseOptions opts.base vals with
  | some e => .error e
  | none =>
    match checkExtOptions opts.extensions vals with
    | some e => .error e
    | none => .ok vals

/-! ## Interactive resolution (`LoadConfigValuesInteractively`, lines 117-162
and `readOptionValue`/`readStdin`, lines 273-326)

The input scanner is modelled as the list of remaining lines plus the
sticky error `Scanner.Err()` reports once the lines are exhausted; the
output stream is the list of chunks printed so far.  The two re-prompt
loops (validation failure inside `readOptionValue`, read/parse failure in
`loadOptionValueInteractively`) are potentially unbounded in Go and are
given fuel; `none` marks fuel exhaustion (divergence within the budget),
`some` a result the Go code actually returns. -/

/-- The `GT` I/O state: remaining input lines, the scanner's error at
exhaustion (`nil` for plain end of input), and the output written so far. -/
structure GTState where
  lines : List String
  inErr : Option GoError
  out : List String
deriving DecidableEq, Repr

/-- Append one printed chunk to the output stream. -/
def GTState.print (st : GTState) (s : String) : GTState :=
  { st with out := st.out ++ [s] }

/-- `err.Error()` for the modelled errors (content only feeds warnings). -/
def GoError.message : GoError → String
  | .alreadyExists d => d ++ ": already exists"
  | .parameterNotSet n => n ++ ": parameter not set"
  | .malformedInput m => "malformed input: " ++ m
  | .parameterSet n => n ++ ": parameter set but preconditions are not met"
  | .typeMismatch e a => "type mismatch, got " ++ a ++ ", expected " ++ e
  | .fsError op p => op ++ " " ++ p ++ ": filesystem error"
  | .renderError m => "template: " ++ m
  | .parseError s => "invalid syntax: " ++ s
  | .externalError c => c ++ ": command failed"

/-- Drop leading whitespace characters. -/
def dropWs : List Char → List Char
  | [] => []
  | c :: rest => if c.isWhitespace then dropWs rest else c :: rest

/-- `strings.TrimSpace`, structurally on the character list (ASCII
whitespace; the Unicode space classes play no role here). -/
def strTrim (s : String) : String :=
  String.mk (List.reverse (dropWs (List.reverse (dropWs s.data))))

/-- `gt.readStdin` (lines 320-326): pop and trim one line; at end of
input, return the empty string together with `Scanner.Err()` (which is
`nil` after a plain EOF). -/
def readStdin (st : GTState) : Except GoError String × GTState :=
  match st.lines with
  | l :: rest => (.ok (strTrim l), { st with lines := rest })
  | [] =>
    match st.inErr with
    | some e => (.error e, st)
    | none => (.ok "", st)

/-- `strconv.ParseBool`: the twelve accepted literals. -/
def parseBool (s : String) : Option Bool :=
  if s = "1" ∨ s = "t" ∨ s = "T" ∨ s = "TRUE" ∨ s = "true" ∨ s = "True" then some true
  else if s = "0" ∨ s = "f" ∨ s = "F" ∨ s = "FALSE" ∨ s = "false" ∨ s = "False" then
    some false
  else none

/-- Decimal digit run for `strconv.Atoi`. -/
def parseDigits : List Char → Option Nat
  | [] => none
  | cs =>
    if cs.all (·.isDigit) then
      some (cs.foldl (fun acc c => acc * 10 + (c.toNat - 48)) 0)
    else none

/-- `strconv.Atoi`: optional single sign, then a non-empty digit run; the
result must fit in a 64-bit signed integer. -/
def atoi (s : String) : Option Int :=
  let parse : List Char → Option Int := fun cs =>
    match cs with
    | '+' :: rest => (parseDigits rest).map Int.ofNat
    | '-' :: rest => (parseDigits rest).map (fun n => -(Int.ofNat n))
    | _ => (parseDigits cs).map Int.ofNat
  match parse s.data with
  | some n => if -(2 ^ 63) ≤ n ∧ n < 2 ^ 63 then some n else none
  | none => none

/-- `gt.printOption` prompt text.

Modelled from the spec: the printing helpers are not under `src/`; the
spec only requires that the prompt/display text identifies the option. -/
def printOptionText (o : Opt) : String :=
  "? " ++ o.name

/-- The type-switch block of `readOptionValue` (lines 288-309): an empty
input line resolves to the default, a non-empty line is coerced by the
default's runtime type (`strconv.ParseBool` / `strconv.Atoi` for boolean
and integer defaults, verbatim for string defaults).  `Value` is a closed
sum of the three supported types, so the `panic("unsupported type")` arm
is unreachable. -/
def coerceInput (dv : Value) (s : String) : Except GoError Value :=
  if s = "" then .ok dv
  else
    match dv with
    | .str _ => .ok (.str s)
    | .bool _ =>
      match parseBool s with
      | some b => .ok (.bool b)
      | none => .error (.parseError s)
    | .int _ =>
      match atoi s with
      | some n => .ok (.int n)
      | none => .error (.parseError s)

/-- `gt.readOptionValue` (lines 273-318): print the prompt, read a line,
resolve the default lazily, coerce the line with `coerceInput`, run
`Validate`, and on rejection print the failure and re-prompt the same
option.  The `defer` prints one newline when each invocation returns,
hence the trailing `print` on every exit path. -/
def readOptionValue (o : Opt) (vals : OptionValues) :
    Nat → GTState → Option (Except GoError Value × GTState)
  | 0, _ => none
  | fuel + 1, st =>
    let st1 := st.print (printOptionText o)
    match readStdin st1 with
    | (.error e, st2) => some (.error e, st2.print "\n")
    | (.ok s, st2) =>
      match coerceInput (o.default vals) s with
      | .error e => some (.error e, st2.print "\n")
      | .ok v =>
        match o.validate v with
        | none => some (.ok v, st2.print "\n")
        | some msg =>
          let st3 := (st2.print "\n").print ("Validation failed: " ++ msg)
          match readOptionValue o vals fuel st3 with
          | none => none
          | some (r, st4) => some (r, st4.print "\n")

/-- The retry loop of `loadOptionValueInteractively` (lines 155-159):
while `readOptionValue` returns an error, print the warning and retry. -/
def retryOption (o : Opt) (vals : OptionValues) :
    Nat → GTState → Option (Value × GTState)
  | 0, _ => none
  | fuel + 1, st =>
    match readOptionValue o vals (fuel + 1) st with
    | none => none
    | some (.ok v, st') => some (v, st')
    | some (.error e, st') => retryOption o vals fuel (st'.print e.message)

/-- `gt.loadOptionValueInteractively` (lines 150-162): skip (returning
`nil`, with no output) when the dependency gate fails, else loop on
`readOptionValue` until it succeeds. -/
def loadOptionValueInteractively (o : Opt) (vals : OptionValues) (fuel : Nat)
    (st : GTState) : Option (Option Value × GTState) :=
  if !o.shouldDisplay vals then some (none, st)
  else
    match retryOption o vals fuel st with
    | none => none
    | some (v, st') => some (some v, st')

/-- The base-option loop of `LoadConfigValuesInteractively`
(lines 121-129): a `nil` value (skipped option) contributes no entry. -/
def processBaseOptions : List Opt → OptionValues → GTState → Nat →
    Option (OptionValues × GTState)
  | [], vals, st, _ => some (vals, st)
  | o :: rest, vals, st, fuel =>
    match loadOptionValueInteractively o vals fuel st with
    | none => none
    | some (none, st') => processBaseOptions rest vals st' fuel
    | some (some v, st') =>
      processBaseOptions rest { vals with base := vals.base.insert o.name v } st' fuel

/-- The per-category inner loop (lines 136-144): accepted values go into
the category's nested map. -/
def processCatOptions (cat : String) : List Opt → OptionValues → GTState → Nat →
    Option (OptionValues × GTState)
  | [], vals, st, _ => some (vals, st)
  | o :: rest, vals, st, fuel =>
    match loadOptionValueInteractively o vals fuel st with
    | none => none
    | some (none, st') => processCatOptions cat rest vals st' fuel
    | some (some v, st') =>
      let m := (vals.extLookup cat).insert o.name v
      processCatOptions cat rest
        { vals with extensions := extInsert vals.extensions cat m } st' fuel

/-- The extension-category loop (lines 132-145): print the category
header, pre-insert an empty map for the category, then run its options. -/
def processCategories : List Category → OptionValues → GTState → Nat →
    Option (OptionValues × GTState)
  | [], vals, st, _ => some (vals, st)
  | cat :: rest, vals, st, fuel =>
    let st1 := st.print ("== " ++ cat.name ++ " ==")
    let vals1 := { vals with extensions := extInsert vals.extensions cat.name [] }
    match processCatOptions cat.name cat.options vals1 st1 fuel with
    | none => none
    | some (vals2, st2) => processCategories rest vals2 st2 fuel

/-- `gt.LoadConfigValuesInteractively` (lines 117-148): banner, base
options, extensions intro, extension categories.  The Go function's error
result is always `nil`; divergence of the retry loops is the only way it
fails to return, modelled by fuel exhaustion. -/
def LoadConfigValuesInteractively (opts : Options) (st : GTState) (fuel : Nat) :
    Option (OptionValues × GTState) :=
  let st0 := st.print "banner"
  match processBaseOptions opts.base NewOptionValues st0 fuel with
  | none => none
  | some (vals, st1) =>
    let st2 := st1.print "extensions-intro"
    processCategories opts.extensions vals st2 fuel

/-! ## Filesystem model

The on-disk state is an association list from path to entry.  The
filesystem operations `new.go` performs (`os.Stat`, `os.MkdirAll`,
`os.WriteFile`, `os.RemoveAll`, the pruning deletions, and the three
bootstrap commands) get failure injection through `FSOracle`, so that the
error paths of `InitNewProject` are reachable in the model. -/

/-- A filesystem entry: a directory or a file with content. -/
inductive FSEntry where
  | dir
  | file (content : String)
deriving DecidableEq, Repr

/-- The disk: an association list from absolute path to entry. -/
def Disk := List (String × FSEntry)
deriving DecidableEq, Repr

def Disk.lookup (d : Disk) (p : String) : Option FSEntry :=
  match d with
  | [] => none
  | (p', e) :: rest => if p' = p then some e else Disk.lookup rest p

/-- Whether a path exists on disk (`os.Stat` succeeding). -/
def Disk.exists (d : Disk) (p : String) : Bool :=
  (d.lookup p).isSome

/-- Whether `p` lies at or under `root` (so `os.RemoveAll root` erases it). -/
def isUnder (root p : String) : Bool :=
  p = root || List.isPrefixOf (root.data ++ ['/']) p.data

/-- `os.RemoveAll root`: drop every entry at or under `root`. -/
def Disk.removeAll (d : Disk) (root : String) : Disk :=
  d.filter fun pe => !isUnder root pe.1

/-- Insert or replace the entry at `p`. -/
def Disk.setEntry (d : Disk) (p : String) (e : FSEntry) : Disk :=
  match d with
  | [] => [(p, e)]
  | (p', e') :: rest =>
    if p' = p then (p, e) :: rest else (p', e') :: Disk.setEntry rest p e

/-- Split on a separator character. -/
def splitChars (sep : Char) : List Char → List (List Char)
  | [] => [[]]
  | c :: rest =>
    match splitChars sep rest with
    | [] => [[c]]
    | g :: gs => if c = sep then [] :: g :: gs else (c :: g) :: gs

/-- Join path segments with `/`. -/
def joinSegs : List (List Char) → List Char
  | [] => []
  | [g] => g
  | g :: gs => g ++ '/' :: joinSegs gs

/-- The chain of ancestor paths of `p`, outermost first
(`"a/b/c"` gives `["a", "a/b", "a/b/c"]`). -/
def ancestorPaths (p : String) : List String :=
  let segs := splitChars '/' p.data
  (List.range segs.length).map fun i => String.mk (joinSegs (segs.take (i + 1)))

/-- `os.MkdirAll p`: create `p` and every missing ancestor as a
directory; existing entries are left alone (idempotent). -/
def Disk.mkdirAll (d : Disk) (p : String) : Disk :=
  (ancestorPaths p).foldl
    (fun acc q => if acc.exists q then acc else acc.setEntry q FSEntry.dir) d

/-- `os.WriteFile p data`: create or truncate the file at `p`. -/
def Disk.writeFile (d : Disk) (p : String) (c : String) : Disk :=
  d.setEntry p (FSEntry.file c)

/-- `path.Join` of two clean segments. -/
def pathJoin (a b : String) : String :=
  if a = "" then b else if b = "" then a else a ++ "/" ++ b

/-- Failure injection for the filesystem operations and the external
bootstrap commands of `InitNewProject`. -/
structure FSOracle where
  statErr : String → Bool
  mkdirFails : String → Bool
  writeFails : String → Bool
  removeFails : String → Bool
  removeAllFails : Bool
  gitInitFails : Bool
  goModInitFails : Bool
  goModTidyFails : Bool

/-! ## Post-generation pruning (`postHook`, lines 245-271) -/

/-- Delete the listed paths (relative to `targetDir`) one by one; a
deletion targeting a missing path succeeds (idempotent remove), an
injected filesystem error aborts with the partially pruned disk. -/
def removePaths (oracle : FSOracle) (targetDir : String) :
    List String → Disk → Option GoError × Disk
  | [], d => (none, d)
  | f :: rest, d =>
    let p := pathJoin targetDir f
    if oracle.removeFails p then (some (.fsError "remove" p), d)
    else removePaths oracle targetDir rest (d.removeAll p)

/-- `Option.PostHook`.

Modelled from the spec: the `option` package is not under `src/`.  Per
the spec's pruning contract, a boolean `true` value deletes the option's
`Remove` list, a boolean `false` value deletes its `Add` list, and a
non-boolean value makes the hook a no-op. -/
def Opt.postHook (o : Opt) (v : Value) (oracle : FSOracle) (targetDir : String)
    (d : Disk) : Option GoError × Disk :=
  match v with
  | .bool true => removePaths oracle targetDir o.filesRemove d
  | .bool false => removePaths oracle targetDir o.filesAdd d
  | _ => (none, d)

/-- Outcome of one of `postHook`'s loops: completed, halted early by the
`return nil` on a missing value, or failed. -/
inductive HookRes where
  | ok (d : Disk)
  | halt (d : Disk)
  | err (e : GoError) (d : Disk)
deriving DecidableEq, Repr

/-- The base loop of `postHook` (lines 246-255): a missing value makes
the whole pass `return nil` immediately (halt). -/
def postHookBase (oracle : FSOracle) (targetDir : String) (vals : OptionValues) :
    List Opt → Disk → HookRes
  | [], d => .ok d
  | o :: rest, d =>
    match vals.base.lookup o.name with
    | none => .halt d
    | some v =>
      match o.postHook v oracle targetDir d with
      | (some e, d') => .err e d'
      | (none, d') => postHookBase oracle targetDir vals rest d'

/-- The inner extension loop of `postHook` (lines 258-267): the value is
looked up in the category's nested map; a missing value halts the whole
pass. -/
def postHookCat (oracle : FSOracle) (targetDir : String) (vals : OptionValues)
    (cat : String) : List Opt → Disk → HookRes
  | [], d => .ok d
  | o :: rest, d =>
    match (vals.extLookup cat).lookup o.name with
    | none => .halt d
    | some v =>
      match o.postHook v oracle targetDir d with
      | (some e, d') => .err e d'
      | (none, d') => postHookCat oracle targetDir vals cat rest d'

/-- The outer extension loop of `postHook` (lines 257-268). -/
def postHookCats (oracle : FSOracle) (targetDir : String) (vals : OptionValues) :
    List Category → Disk → HookRes
  | [], d => .ok d
  | cat :: rest, d =>
    match postHookCat oracle targetDir vals cat.name cat.options d with
    | .err e d' => .err e d'
    | .halt d' => .halt d'
    | .ok d' => postHookCats oracle targetDir vals rest d'

/-- `postHook` (lines 245-271): run the base loop, then the extension
loops; a halt is a successful (nil-error) return. -/
def postHook (opts : Options) (vals : OptionValues) (targetDir : String)
    (oracle : FSOracle) (d : Disk) : Option GoError × Disk :=
  match postHookBase oracle targetDir vals opts.base d with
  | .err e d' => (some e, d')
  | .halt d' => (none, d')
  | .ok d' =>
    match postHookCats oracle targetDir vals opts.extensions d' with
    | .err e d2 => (some e, d2)
    | .halt d2 => (none, d2)
    | .ok d2 => (none, d2)

/-! ## Project generation (`InitNewProject`, lines 164-243) -/

/-- One entry of the embedded template source tree, in walk order.
`walkErr` is the error `fs.WalkDir` hands the callback for this entry. -/
structure TemplateEntry where
  path : String
  isDir : Bool
  content : String
  walkErr : Option GoError

/-- `gt.executeTemplateString` delegates to the external `text/template`
engine; the embedding abstracts it as a function from template text and
option values to rendered text or a template error. -/
def Renderer := (String → OptionValues → Except GoError String)

/-- `strings.ReplaceAll` on character lists, structurally: `skip` counts
pattern characters still to consume after a match (an empty pattern, which
never occurs for the source-tree key, leaves the text unchanged). -/
def replaceAux (pat sub : List Char) : Nat → List Char → List Char
  | _, [] => []
  | skip + 1, _ :: rest => replaceAux pat sub skip rest
  | 0, c :: rest =>
    match pat with
    | [] => c :: rest
    | p0 :: ptail =>
      if List.isPrefixOf (p0 :: ptail) (c :: rest) then
        sub ++ replaceAux pat sub ptail.length rest
      else c :: replaceAux pat sub 0 rest

/-- `strings.ReplaceAll(s, pat, sub)`. -/
def replaceAll (s pat sub : String) : String :=
  String.mk (replaceAux pat.data sub.data 0 s.data)

/-- The `fs.WalkDir` callback applied over the template entries
(lines 180-206): render the path, substitute the source-tree key by the
target directory, create directories with `MkdirAll`, render and write
file contents; the first error aborts the walk with the partial disk. -/
def walkEntries (render : Renderer) (vals : OptionValues) (key targetDir : String)
    (oracle : FSOracle) : List TemplateEntry → Disk → Option GoError × Disk
  | [], d => (none, d)
  | e :: rest, d =>
    match e.walkErr with
    | some werr => (some werr, d)
    | none =>
      match render e.path vals with
      | .error re => (some re, d)
      | .ok rendered =>
        let pathToWrite := replaceAll rendered key targetDir
        if e.isDir then
          if oracle.mkdirFails pathToWrite then (some (.fsError "mkdir" pathToWrite), d)
          else walkEntries render vals key targetDir oracle rest (d.mkdirAll pathToWrite)
        else
          match render e.content vals with
          | .error re => (some re, d)
          | .ok data =>
            if oracle.writeFails pathToWrite then
              (some (.fsError "write" pathToWrite), d)
            else walkEntries render vals key targetDir oracle rest (d.writeFile pathToWrite data)

/-- The deferred cleanup (lines 174-179): on a non-nil error about to be
returned, `os.RemoveAll(targetDir)` runs with its own error ignored. -/
def deferCleanup (oracle : FSOracle) (targetDir : String) (d : Disk) : Disk :=
  if oracle.removeAllFails then d else d.removeAll targetDir

/-- `initRepo` (lines 224-243): run `git init`, `go mod init`,
`go mod tidy` in order, returning the first failure.  The commands are
external processes; their success is oracle-driven and their effect on
the disk is outside the model. -/
def initRepo (oracle : FSOracle) : Option GoError :=
  if oracle.gitInitFails then some (.externalError "git init")
  else if oracle.goModInitFails then some (.externalError "go mod init")
  else if oracle.goModTidyFails then some (.externalError "go mod tidy")
  else none

/-- `NewRepositoryOptions` (output directory plus resolved values). -/
structure NewRepositoryOptions where
  outputDir : String
  optionValues : OptionValues

/-- `gt.InitNewProject` (lines 164-222): compute the target directory
from the `projectSlug` value (a failed type assertion is a Go panic,
modelled as `none`), refuse an existing target, then walk the template
tree, prune, and bootstrap; the deferred cleanup removes the target
directory whenever the named return error is non-nil at return time —
which covers walk, pruning AND bootstrap errors, since `return err`
assigns the named result before the defer runs. -/
def InitNewProject (tmpl : List TemplateEntry) (render : Renderer) (opts : Options)
    (ropts : NewRepositoryOptions) (key : String) (oracle : FSOracle) (d : Disk) :
    Option (Option GoError × Disk) :=
  match ropts.optionValues.base.lookup "projectSlug" with
  | some (.str slug) =>
    let targetDir := pathJoin ropts.outputDir slug
    if oracle.statErr targetDir || d.exists targetDir then
      some (some (.alreadyExists targetDir), d)
    else
      match walkEntries render ropts.optionValues key targetDir oracle tmpl d with
      | (some e, d1) => some (some e, deferCleanup oracle targetDir d1)
      | (none, d1) =>
        match postHook opts ropts.optionValues targetDir oracle d1 with
        | (some e, d2) => some (some e, deferCleanup oracle targetDir d2)
        | (none, d2) =>
          match ropts.optionValues.base.lookup "moduleName" with
          | some (.str _) =>
            match initRepo oracle with
            | some e => some (some e, deferCleanup oracle targetDir d2)
            | none => some (none, d2)
          | _ => none
  | _ => none

/-! ## Helper lemmas -/

/-- `validateFileOption` accepts a value of the right type that passes
`Validate` and whose dependency gate is met. -/
theorem validateFileOption_accepts (o : Opt) (v : Value) (vals : OptionValues)
    (ht : v.vtype = (o.default vals).vtype) (hv : o.validate v = none)
    (hd : o.shouldDisplay vals = true) :
    validateFileOption o v vals = none := by
  unfold validateFileOption
  rw [ht]
  simp [hv, hd]

/-- The base-option check accepts when every base option is present,
non-zero, type-correct, validated and dependency-satisfied. -/
theorem checkBaseOptions_accepts (os : List Opt) (vals : OptionValues)
    (h : ∀ o ∈ os, ∃ v, vals.base.lookup o.name = some v ∧ v.isZero = false ∧
      v.vtype = (o.default vals).vtype ∧ o.validate v = none ∧
      o.shouldDisplay vals = true) :
    checkBaseOptions os vals = none := by
  induction os with
  | nil => rfl
  | cons o rest ih =>
    obtain ⟨v, hl, hz, ht, hv, hd⟩ := h o (List.mem_cons_self o rest)
    have hvo := validateFileOption_accepts o v vals ht hv hd
    simp only [checkBaseOptions, hl, hz, Bool.false_eq_true, if_false, hvo]
    exact ih fun o' ho' => h o' (List.mem_cons_of_mem o ho')

/-- The per-category check accepts when every option of the category that
is supplied under a top-level base key is type-correct, validated and
dependency-satisfied. -/
theorem checkCatOptions_accepts (os : List Opt) (vals : OptionValues)
    (h : ∀ o ∈ os, ∀ v, vals.base.lookup o.name = some v →
      v.vtype = (o.default vals).vtype ∧ o.validate v = none ∧
      o.shouldDisplay vals = true) :
    checkCatOptions os vals = none := by
  induction os with
  | nil => rfl
  | cons o rest ih =>
    cases hl : vals.base.lookup o.name with
    | none =>
      simp only [checkCatOptions, hl]
      exact ih fun o' ho' => h o' (List.mem_cons_of_mem o ho')
    | some v =>
      obtain ⟨ht, hv, hd⟩ := h o (List.mem_cons_self o rest) v hl
      have hvo := validateFileOption_accepts o v vals ht hv hd
      simp only [checkCatOptions, hl, hvo]
      exact ih fun o' ho' => h o' (List.mem_cons_of_mem o ho')

/-- The extension check accepts when every category's check accepts. -/
theorem checkExtOptions_accepts (cats : List Category) (vals : OptionValues)
    (h : ∀ cat ∈ cats, checkCatOptions cat.options vals = none) :
    checkExtOptions cats vals = none := by
  induction cats with
  | nil => rfl
  | cons cat rest ih =>
    unfold checkExtOptions
    rw [h cat (List.mem_cons_self cat rest)]
    exact ih fun c hc => h c (List.mem_cons_of_mem cat hc)

/-! ## C5: file-sourced round-trip -/

/-- C5: for every option schema, loading values file-sourced from an
input document that is complete (every base option present and
non-zero), type-correct, passes every `Validate` predicate and satisfies
every dependency gate succeeds and returns exactly that input document
(round-trip). -/
theorem c5_file_roundtrip (opts : Options) (vals : OptionValues)
    (hbase : ∀ o ∈ opts.base, ∃ v, vals.base.lookup o.name = some v ∧
      v.isZero = false ∧ v.vtype = (o.default vals).vtype ∧
      o.validate v = none ∧ o.shouldDisplay vals = true)
    (hext : ∀ cat ∈ opts.extensions, ∀ o ∈ cat.options, ∀ v,
      vals.base.lookup o.name = some v →
      v.vtype = (o.default vals).vtype ∧ o.validate v = none ∧
      o.shouldDisplay vals = true) :
    loadConfigValues opts vals = .ok vals := by
  unfold loadConfigValues
  rw [checkBaseOptions_accepts opts.base vals hbase]
  rw [checkExtOptions_accepts opts.extensions vals
    (fun cat hcat => checkCatOptions_accepts cat.options vals (hext cat hcat))]

/-- Concrete schema and document for the C5 witness: one base option and
one extension option, the extension option also supplied under a base
key. -/
def w5Base : Opt :=
  ⟨"projectSlug", fun _ => .str "d", fun _ => none, [], [], []⟩

def w5Ext : Opt :=
  ⟨"grpcGateway", fun _ => .bool false, fun _ => none, [], [], []⟩

def w5Schema : Options := ⟨[w5Base], [⟨"grpc", [w5Ext]⟩]⟩

def w5Vals : OptionValues :=
  ⟨[("projectSlug", .str "proj"), ("grpcGateway", .bool true)], []⟩

theorem c5_file_roundtrip_witness :
    loadConfigValues w5Schema w5Vals = .ok w5Vals := by
  apply c5_file_roundtrip
  · intro o ho
    simp only [w5Schema, List.mem_singleton] at ho
    subst ho
    exact ⟨.str "proj", rfl, rfl, rfl, rfl, rfl⟩
  · intro cat hcat o ho v hv
    simp only [w5Schema, List.mem_singleton] at hcat
    subst hcat
    simp only [List.mem_singleton] at ho
    subst ho
    simp only [w5Vals, OptionNameToValue.lookup] at hv
    simp only [w5Ext, reduceIte] at hv
    cases hv
    exact ⟨rfl, rfl, rfl⟩

/-! ## C6: missing or zero base option -/

/-- The base-option check reports `ParameterNotSet` for the first option
whose value is missing or zero, provided every earlier option passes. -/
theorem checkBaseOptions_missing (pre post : List Opt) (o : Opt) (vals : OptionValues)
    (hpre : ∀ o' ∈ pre, ∃ v, vals.base.lookup o'.name = some v ∧
      v.isZero = false ∧ validateFileOption o' v vals = none)
    (hmiss : vals.base.lookup o.name = none ∨
      ∃ v, vals.base.lookup o.name = some v ∧ v.isZero = true) :
    checkBaseOptions (pre ++ o :: post) vals = some (.parameterNotSet o.name) := by
  induction pre with
  | nil =>
    rcases hmiss with hn | ⟨v, hl, hz⟩
    · simp only [List.nil_append, checkBaseOptions, hn]
    · simp only [List.nil_append, checkBaseOptions, hl, hz, if_true]
  | cons o' rest ih =>
    obtain ⟨v, hl, hz, hok⟩ := hpre o' (List.mem_cons_self o' rest)
    rw [List.cons_append]
    simp only [checkBaseOptions, hl, hz, Bool.false_eq_true, if_false, hok]
    exact ih fun o'' ho'' => hpre o'' (List.mem_cons_of_mem o' ho'')

/-- C6: for every base option declared in the schema, file-sourced
loading fails with `ParameterNotSet` when the input document has no entry
under that option's name, or when the entry is the zero value for its
type; stated for the first such option (every earlier base option
passing its checks), since the loop reports the first failure. -/
theorem c6_parameter_not_set (opts : Options) (vals : OptionValues)
    (pre post : List Opt) (o : Opt)
    (hsplit : opts.base = pre ++ o :: post)
    (hpre : ∀ o' ∈ pre, ∃ v, vals.base.lookup o'.name = some v ∧
      v.isZero = false ∧ validateFileOption o' v vals = none)
    (hmiss : vals.base.lookup o.name = none ∨
      ∃ v, vals.base.lookup o.name = some v ∧ v.isZero = true) :
    loadConfigValues opts vals = .error (.parameterNotSet o.name) := by
  unfold loadConfigValues
  rw [hsplit, checkBaseOptions_missing pre post o vals hpre hmiss]

/-- C6 witness: a two-option schema whose second option is supplied with
the zero value `""`, with a variant where it is absent altogether. -/
def w6First : Opt := ⟨"projectName", fun _ => .str "n", fun _ => none, [], [], []⟩

def w6Second : Opt := ⟨"projectSlug", fun _ => .str "d", fun _ => none, [], [], []⟩

def w6Schema : Options := ⟨[w6First, w6Second], []⟩

def w6Vals : OptionValues :=
  ⟨[("projectName", .str "x"), ("projectSlug", .str "")], []⟩

theorem c6_parameter_not_set_witness :
    loadConfigValues w6Schema w6Vals = .error (.parameterNotSet "projectSlug") := by
  apply c6_parameter_not_set w6Schema w6Vals [w6First] [] w6Second rfl
  · intro o' ho'
    simp only [List.mem_singleton] at ho'
    subst ho'
    exact ⟨.str "x", rfl, rfl, rfl⟩
  · exact Or.inr ⟨.str "", rfl, rfl⟩

/-! ## C7: extension options in file-sourced loading -/

/-- C7 counterexample data: one extension option whose validator rejects
every value, supplied only under its category's grouped key. -/
def x7Opt : Opt := ⟨"grpcGateway", fun _ => .str "d", fun _ => some "rejected", [], [], []⟩

def x7Schema : Options := ⟨[], [⟨"grpc", [x7Opt]⟩]⟩

def x7Vals : OptionValues := ⟨[], [("grpc", [("grpcGateway", Value.str "v")])]⟩

/-- C7 counterexample: the extension option is supplied under the grouped
category-name → option-name key and its `Validate` predicate rejects
every value, yet file-sourced loading succeeds and returns the document —
so a grouped-key-supplied extension option is NOT validated the way a
base option is (which would have failed with `MalformedInput`).  The
extension loop of `LoadConfigValuesFromFile` looks the value up in the
document's top-level base map only. -/
theorem c7_counterexample :
    loadConfigValues x7Schema x7Vals = .ok x7Vals ∧
    (x7Vals.extLookup "grpc").lookup "grpcGateway" = some (.str "v") ∧
    x7Opt.validate (.str "v") = some "rejected" :=
  ⟨rfl, rfl, rfl⟩

/-- First error in a list of check results. -/
def firstSome : List (Option GoError) → Option GoError
  | [] => none
  | some e :: _ => some e
  | none :: rest => firstSome rest

/-- C7 amended: extension-category options are optional in file-sourced
loading — an extension option with no entry under its name in the
document's TOP-LEVEL base map is skipped without error while later
options are still processed, and one that does have a top-level base
entry is validated exactly like a base option (type check, `Validate`,
dependency gate, without the presence/zero check); entries under the
grouped category-name → option-name key are ignored by this validation.
Formally, the per-category check equals the first failure of
`validateFileOption` over exactly the options supplied under a base key. -/
theorem c7_amended_ext_validation (os : List Opt) (vals : OptionValues) :
    checkCatOptions os vals =
      firstSome (os.filterMap fun o =>
        (vals.base.lookup o.name).map fun v => validateFileOption o v vals) := by
  induction os with
  | nil => rfl
  | cons o rest ih =>
    cases hl : vals.base.lookup o.name with
    | none =>
      simp only [checkCatOptions, hl, List.filterMap_cons, Option.map_none']
      exact ih
    | some v =>
      cases hv : validateFileOption o v vals with
      | none =>
        simp only [checkCatOptions, hl, hv, List.filterMap_cons, Option.map_some', firstSome]
        exact ih
      | some e =>
        simp only [checkCatOptions, hl, hv, List.filterMap_cons, Option.map_some', firstSome]

/-! ## Claims about `InitNewProject` and the pruning pass -/

/-- Everything at or under `root` is gone after `RemoveAll root`. -/
theorem lookup_removeAll (root p : String) (h : isUnder root p = true) (d : Disk) :
    Disk.lookup (Disk.removeAll d root) p = none := by
  induction d with
  | nil => rfl
  | cons pe rest ih =>
    obtain ⟨q, en⟩ := pe
    by_cases hq : isUnder root q = true
    · simpa only [Disk.removeAll, List.filter_cons, hq, Bool.not_true, Bool.false_eq_true,
        if_false] using ih
    · rw [Bool.not_eq_true] at hq
      simp only [Disk.removeAll, List.filter_cons, hq, Bool.not_false, if_true] at ih ⊢
      have hne : q ≠ p := fun hc => by rw [hc, h] at hq; cases hq
      simp only [Disk.lookup, hne, if_false]
      exact ih

/-! ## C3: existing target directory -/

/-- C3: when the target output directory already exists, `InitNewProject`
fails with `AlreadyExists` and returns the disk unchanged — no generation
is attempted, nothing is written into or deleted from the pre-existing
directory (the check happens before the cleanup `defer` is installed, so
no rollback touches it either). -/
theorem c3_already_exists (tmpl : List TemplateEntry) (render : Renderer)
    (opts : Options) (ropts : NewRepositoryOptions) (key slug : String)
    (oracle : FSOracle) (d : Disk)
    (hslug : ropts.optionValues.base.lookup "projectSlug" = some (.str slug))
    (hex : d.exists (pathJoin ropts.outputDir slug) = true) :
    InitNewProject tmpl render opts ropts key oracle d =
      some (some (.alreadyExists (pathJoin ropts.outputDir slug)), d) := by
  simp only [InitNewProject, hslug, hex, Bool.or_true, if_true]

/-- C3 witness data: a pre-existing target directory with one file. -/
def w3Vals : OptionValues := ⟨[("projectSlug", .str "proj")], []⟩

def w3Oracle : FSOracle :=
  ⟨fun _ => false, fun _ => false, fun _ => false, fun _ => false, false, false, false, false⟩

def w3Disk : Disk := [("out/proj", .dir), ("out/proj/keep.txt", .file "data")]

theorem c3_already_exists_witness :
    InitNewProject [] (fun s _ => .ok s) ⟨[], []⟩ ⟨"out", w3Vals⟩ "_template" w3Oracle w3Disk =
      some (some (.alreadyExists "out/proj"), w3Disk) :=
  c3_already_exists [] (fun s _ => .ok s) ⟨[], []⟩ ⟨"out", w3Vals⟩ "_template" "proj"
    w3Oracle w3Disk rfl rfl

/-! ## C2: walk failure removes the whole target directory -/

/-- C2: if any step of the template-tree walk fails, `InitNewProject`
returns exactly the walk's error and runs the deferred
`os.RemoveAll(targetDir)`: when that removal succeeds nothing at or under
the target directory survives, and when it fails its error is swallowed —
the returned error is still the original walk error in both cases. -/
theorem c2_walk_failure_rollback (tmpl : List TemplateEntry) (render : Renderer)
    (opts : Options) (ropts : NewRepositoryOptions) (key slug : String)
    (oracle : FSOracle) (d d1 : Disk) (e : GoError)
    (hslug : ropts.optionValues.base.lookup "projectSlug" = some (.str slug))
    (hstat : oracle.statErr (pathJoin ropts.outputDir slug) = false)
    (hex : d.exists (pathJoin ropts.outputDir slug) = false)
    (hwalk : walkEntries render ropts.optionValues key (pathJoin ropts.outputDir slug)
      oracle tmpl d = (some e, d1)) :
    InitNewProject tmpl render opts ropts key oracle d =
      some (some e, deferCleanup oracle (pathJoin ropts.outputDir slug) d1) ∧
    (oracle.removeAllFails = false →
      ∀ p, isUnder (pathJoin ropts.outputDir slug) p = true →
        Disk.lookup (deferCleanup oracle (pathJoin ropts.outputDir slug) d1) p = none) := by
  constructor
  · simp only [InitNewProject, hslug, hstat, hex, Bool.or_false, Bool.false_eq_true,
      if_false, hwalk]
  · intro hra p hp
    simp only [deferCleanup, hra, Bool.false_eq_true, if_false]
    exact lookup_removeAll _ p hp d1

/-- C2 witness data: a two-entry template whose second entry fails to
render, after the first entry already created directories. -/
def w2Vals : OptionValues := ⟨[("projectSlug", .str "proj")], []⟩

def w2Tmpl : List TemplateEntry :=
  [⟨"_template", true, "", none⟩, ⟨"_template/bad.txt", false, "broken-template", none⟩]

def w2Render : Renderer := fun s _ =>
  if s = "broken-template" then .error (.renderError "unclosed action") else .ok s

theorem c2_walk_failure_rollback_witness :
    InitNewProject w2Tmpl w2Render ⟨[], []⟩ ⟨"out", w2Vals⟩ "_template" w3Oracle [] =
      some (some (.renderError "unclosed action"),
        deferCleanup w3Oracle "out/proj" [("out", .dir), ("out/proj", .dir)]) ∧
    (w3Oracle.removeAllFails = false →
      ∀ p, isUnder "out/proj" p = true →
        Disk.lookup (deferCleanup w3Oracle "out/proj" [("out", .dir), ("out/proj", .dir)]) p = none) :=
  c2_walk_failure_rollback w2Tmpl w2Render ⟨[], []⟩ ⟨"out", w2Vals⟩ "_template" "proj"
    w3Oracle [] [("out", .dir), ("out/proj", .dir)] (.renderError "unclosed action")
    rfl rfl rfl rfl

/-! ## C1: errors during pruning or bootstrap -/

/-- C1 counterexample data: a successful walk writing `out/proj/y`, then
a pruning pass that fails deleting `out/proj/y`. -/
def x1OptSlug : Opt := ⟨"projectSlug", fun _ => .str "", fun _ => none, [], [], []⟩

def x1OptFeat : Opt := ⟨"feat", fun _ => .bool true, fun _ => none, [], [], ["y"]⟩

def x1Schema : Options := ⟨[x1OptSlug, x1OptFeat], []⟩

def x1Vals : OptionValues :=
  ⟨[("projectSlug", .str "proj"), ("feat", .bool true), ("moduleName", .str "m")], []⟩

def x1Tmpl : List TemplateEntry :=
  [⟨"_template", true, "", none⟩, ⟨"_template/y", false, "hello", none⟩]

def x1Oracle : FSOracle :=
  ⟨fun _ => false, fun _ => false, fun _ => false, fun p => p = "out/proj/y",
    false, false, false, false⟩

/-- C1 counterexample: a filesystem error during the pruning pass is
surfaced to the caller, but the target directory is NOT left on disk
as-is: the deferred cleanup fires (the `defer` tests the named return
`err`, which `return err` sets before the defer runs) and the whole
partially-pruned target directory `out/proj` — including `out/proj/y`,
which the failed pruning had not deleted — is removed, contradicting the
claim's "surfaced without rollback of already-written content". -/
theorem c1_counterexample :
    InitNewProject x1Tmpl (fun s _ => .ok s) x1Schema ⟨"out", x1Vals⟩ "_template"
      x1Oracle [] =
      some (some (.fsError "remove" "out/proj/y"), [("out", .dir)]) ∧
    Disk.lookup [("out", FSEntry.dir)] "out/proj/y" = none ∧
    Disk.exists [("out", FSEntry.dir)] "out/proj" = false :=
  ⟨rfl, rfl, rfl⟩

/-- C1 amended: a filesystem error during the post-generation pruning
pass or the external bootstrap step of `InitNewProject` is fatal and the
original error is surfaced to the caller unchanged, but the deferred
best-effort cleanup applies to these errors too: the target directory
(partially pruned or not) is removed before returning whenever the
deferred `RemoveAll` itself succeeds, rather than being left on disk
as-is. -/
theorem c1_amended_cleanup_on_prune_or_bootstrap (tmpl : List TemplateEntry)
    (render : Renderer) (opts : Options) (ropts : NewRepositoryOptions)
    (key slug : String) (oracle : FSOracle) (d d1 : Disk)
    (hslug : ropts.optionValues.base.lookup "projectSlug" = some (.str slug))
    (hstat : oracle.statErr (pathJoin ropts.outputDir slug) = false)
    (hex : d.exists (pathJoin ropts.outputDir slug) = false)
    (hwalk : walkEntries render ropts.optionValues key (pathJoin ropts.outputDir slug)
      oracle tmpl d = (none, d1)) :
    (∀ e d2, postHook opts ropts.optionValues (pathJoin ropts.outputDir slug) oracle d1 =
        (some e, d2) →
      InitNewProject tmpl render opts ropts key oracle d =
        some (some e, deferCleanup oracle (pathJoin ropts.outputDir slug) d2)) ∧
    (∀ d2 m e, postHook opts ropts.optionValues (pathJoin ropts.outputDir slug) oracle d1 =
        (none, d2) →
      ropts.optionValues.base.lookup "moduleName" = some (.str m) →
      initRepo oracle = some e →
      InitNewProject tmpl render opts ropts key oracle d =
        some (some e, deferCleanup oracle (pathJoin ropts.outputDir slug) d2)) ∧
    (∀ dAny p, oracle.removeAllFails = false →
      isUnder (pathJoin ropts.outputDir slug) p = true →
      Disk.lookup (deferCleanup oracle (pathJoin ropts.outputDir slug) dAny) p = none) := by
  refine ⟨?_, ?_, ?_⟩
  · intro e d2 hpost
    simp only [InitNewProject, hslug, hstat, hex, Bool.or_false, Bool.false_eq_true,
      if_false, hwalk, hpost]
  · intro d2 m e hpost hmod hinit
    simp only [InitNewProject, hslug, hstat, hex, Bool.or_false, Bool.false_eq_true,
      if_false, hwalk, hpost, hmod, hinit]
  · intro dAny p hra hp
    simp only [deferCleanup, hra, Bool.false_eq_true, if_false]
    exact lookup_removeAll _ p hp dAny

theorem c1_amended_witness :
    InitNewProject x1Tmpl (fun s _ => .ok s) x1Schema ⟨"out", x1Vals⟩ "_template"
      x1Oracle [] =
      some (some (.fsError "remove" "out/proj/y"),
        deferCleanup x1Oracle "out/proj"
          [("out", .dir), ("out/proj", .dir), ("out/proj/y", .file "hello")]) :=
  (c1_amended_cleanup_on_prune_or_bootstrap x1Tmpl (fun s _ => .ok s) x1Schema
    ⟨"out", x1Vals⟩ "_template" "proj" x1Oracle []
    [("out", .dir), ("out/proj", .dir), ("out/proj/y", .file "hello")]
    rfl rfl rfl rfl).1
    (.fsError "remove" "out/proj/y")
    [("out", .dir), ("out/proj", .dir), ("out/proj/y", .file "hello")] rfl

/-! ## C4: which options the pruning pass processes -/

/-- C4 counterexample data: two base options; the first has no resolved
value, the second is boolean `true` with `Remove: ["y"]`. -/
def x4OptA : Opt := ⟨"alpha", fun _ => .str "", fun _ => none, [], [], []⟩

def x4OptB : Opt := ⟨"beta", fun _ => .bool true, fun _ => none, [], [], ["y"]⟩

def x4Schema : Options := ⟨[x4OptA, x4OptB], []⟩

def x4Vals : OptionValues := ⟨[("beta", .bool true)], []⟩

def x4Disk : Disk := [("proj", .dir), ("proj/y", .file "x")]

/-- C4 counterexample: `beta` has the boolean value `true` and
`Remove: ["y"]`, so per the claim the pruning pass should delete
`proj/y`; but because the earlier option `alpha` has no resolved value,
`postHook` hits `return nil` and stops — it succeeds without processing
`beta`, leaving `proj/y` on disk.  An absent value does not merely skip
that option: it terminates the whole pass. -/
theorem c4_counterexample :
    postHook x4Schema x4Vals "proj" w3Oracle x4Disk = (none, x4Disk) ∧
    Disk.lookup x4Disk "proj/y" = some (.file "x") ∧
    x4Vals.base.lookup "beta" = some (.bool true) ∧
    x4OptB.filesRemove = ["y"] :=
  ⟨rfl, rfl, rfl, rfl⟩

/-- The pruning pass the spec describes over one option list.

Follows the spec's words (§4.4), for comparison with `postHook`: every
option whose value resolves is processed — boolean `true` deletes the
`Remove` list, boolean `false` deletes the `Add` list, a non-boolean
value is skipped — and an option with no resolved value is skipped while
later options are still processed. -/
def pruneList (oracle : FSOracle) (targetDir : String) (lookupVal : Opt → Option Value) :
    List Opt → Disk → Option GoError × Disk
  | [], d => (none, d)
  | o :: rest, d =>
    match lookupVal o with
    | none => pruneList oracle targetDir lookupVal rest d
    | some v =>
      match o.postHook v oracle targetDir d with
      | (some e, d') => (some e, d')
      | (none, d') => pruneList oracle targetDir lookupVal rest d'

/-- The spec-style pass over the extension categories. -/
def pruneCats (oracle : FSOracle) (targetDir : String) (vals : OptionValues) :
    List Category → Disk → Option GoError × Disk
  | [], d => (none, d)
  | cat :: rest, d =>
    match pruneList oracle targetDir (fun o => (vals.extLookup cat.name).lookup o.name)
        cat.options d with
    | (some e, d') => (some e, d')
    | (none, d') => pruneCats oracle targetDir vals rest d'

/-- The spec-style pruning pass over the full schema. -/
def prunePass (opts : Options) (vals : OptionValues) (targetDir : String)
    (oracle : FSOracle) (d : Disk) : Option GoError × Disk :=
  match pruneList oracle targetDir (fun o => vals.base.lookup o.name) opts.base d with
  | (some e, d') => (some e, d')
  | (none, d') => pruneCats oracle targetDir vals opts.extensions d'

theorem postHookBase_eq_pruneList (oracle : FSOracle) (targetDir : String)
    (vals : OptionValues) (os : List Opt) (d : Disk)
    (h : ∀ o ∈ os, (vals.base.lookup o.name).isSome = true) :
    postHookBase oracle targetDir vals os d =
      match pruneList oracle targetDir (fun o => vals.base.lookup o.name) os d with
      | (some e, d') => .err e d'
      | (none, d') => .ok d' := by
  induction os generalizing d with
  | nil => rfl
  | cons o rest ih =>
    cases hl : vals.base.lookup o.name with
    | none =>
      have := h o (List.mem_cons_self o rest)
      rw [hl] at this
      cases this
    | some v =>
      cases hph : o.postHook v oracle targetDir d with
      | mk oe d' =>
        cases oe with
        | some e => simp only [postHookBase, pruneList, hl, hph]
        | none =>
          simp only [postHookBase, pruneList, hl, hph]
          exact ih d' fun o' ho' => h o' (List.mem_cons_of_mem o ho')

theorem postHookCat_eq_pruneList (oracle : FSOracle) (targetDir : String)
    (vals : OptionValues) (cat : String) (os : List Opt) (d : Disk)
    (h : ∀ o ∈ os, ((vals.extLookup cat).lookup o.name).isSome = true) :
    postHookCat oracle targetDir vals cat os d =
      match pruneList oracle targetDir (fun o => (vals.extLookup cat).lookup o.name) os d with
      | (some e, d') => .err e d'
      | (none, d') => .ok d' := by
  induction os generalizing d with
  | nil => rfl
  | cons o rest ih =>
    cases hl : (vals.extLookup cat).lookup o.name with
    | none =>
      have := h o (List.mem_cons_self o rest)
      rw [hl] at this
      cases this
    | some v =>
      cases hph : o.postHook v oracle targetDir d with
      | mk oe d' =>
        cases oe with
        | some e => simp only [postHookCat, pruneList, hl, hph]
        | none =>
          simp only [postHookCat, pruneList, hl, hph]
          exact ih d' fun o' ho' => h o' (List.mem_cons_of_mem o ho')

theorem postHookCats_eq_pruneCats (oracle : FSOracle) (targetDir : String)
    (vals : OptionValues) (cats : List Category) (d : Disk)
    (h : ∀ cat ∈ cats, ∀ o ∈ cat.options,
      ((vals.extLookup cat.name).lookup o.name).isSome = true) :
    postHookCats oracle targetDir vals cats d =
      match pruneCats oracle targetDir vals cats d with
      | (some e, d') => .err e d'
      | (none, d') => .ok d' := by
  induction cats generalizing d with
  | nil => rfl
  | cons cat rest ih =>
    have hcat := postHookCat_eq_pruneList oracle targetDir vals cat.name cat.options d
      (h cat (List.mem_cons_self cat rest))
    cases hpl : pruneList oracle targetDir
        (fun o => (vals.extLookup cat.name).lookup o.name) cat.options d with
    | mk oe d' =>
      cases oe with
      | some e =>
        rw [hpl] at hcat
        simp only [postHookCats, pruneCats, hcat, hpl]
      | none =>
        rw [hpl] at hcat
        simp only [postHookCats, pruneCats, hcat, hpl]
        exact ih d' fun c hc => h c (List.mem_cons_of_mem cat hc)

/-- C4 amended: the pruning pass processes the schema's options in
declared order, and for a processed option with a boolean value deletes
the `Remove` list when `true` and the `Add` list when `false`, skipping
processed options whose value is not boolean while later options are
still processed — but an option with NO resolved value does not merely
get skipped: it terminates the whole pass immediately with success (shown
by the counterexample).  Consequently, whenever every option of the
schema has a resolved value, `postHook` coincides with the spec's
process-every-option pass. -/
theorem c4_amended_pruning (opts : Options) (vals : OptionValues) (targetDir : String)
    (oracle : FSOracle) (d : Disk)
    (hbase : ∀ o ∈ opts.base, (vals.base.lookup o.name).isSome = true)
    (hext : ∀ cat ∈ opts.extensions, ∀ o ∈ cat.options,
      ((vals.extLookup cat.name).lookup o.name).isSome = true) :
    postHook opts vals targetDir oracle d = prunePass opts vals targetDir oracle d := by
  unfold postHook prunePass
  rw [postHookBase_eq_pruneList oracle targetDir vals opts.base d hbase]
  cases hpl : pruneList oracle targetDir (fun o => vals.base.lookup o.name) opts.base d with
  | mk oe d' =>
    cases oe with
    | some e => rfl
    | none =>
      show (match postHookCats oracle targetDir vals opts.extensions d' with
        | HookRes.err e d2 => (some e, d2)
        | HookRes.halt d2 => (none, d2)
        | HookRes.ok d2 => (none, d2)) =
        pruneCats oracle targetDir vals opts.extensions d'
      rw [postHookCats_eq_pruneCats oracle targetDir vals opts.extensions d' hext]
      cases hpc : pruneCats oracle targetDir vals opts.extensions d' with
      | mk oe2 d2 => cases oe2 <;> rfl

/-- C4 amended witness data: both options carry boolean values, one
`true` (its `Remove` file goes away) and one `false` (its `Add` file goes
away). -/
def w4OptA : Opt := ⟨"alpha", fun _ => .bool true, fun _ => none, [], ["ax"], ["ay"]⟩

def w4OptB : Opt := ⟨"beta", fun _ => .bool true, fun _ => none, [], ["bx"], ["by"]⟩

def w4Vals : OptionValues := ⟨[("alpha", .bool true), ("beta", .bool false)], []⟩

def w4Disk : Disk :=
  [("proj", .dir), ("proj/ax", .file "1"), ("proj/ay", .file "2"),
   ("proj/bx", .file "3"), ("proj/by", .file "4")]

theorem c4_amended_pruning_witness :
    postHook ⟨[w4OptA, w4OptB], []⟩ w4Vals "proj" w3Oracle w4Disk =
      prunePass ⟨[w4OptA, w4OptB], []⟩ w4Vals "proj" w3Oracle w4Disk := by
  apply c4_amended_pruning
  · intro o ho
    simp only [List.mem_cons] at ho
    rcases ho with h | h | h
    · subst h; rfl
    · subst h; rfl
    · cases h
  · intro cat hcat
    cases hcat

/-! ## C9: interactive coercion of a single option -/

/-- One successful pass of `readOptionValue`: a line is read and trimmed,
the coercion succeeds and the validator accepts, so the typed value is
returned with the prompt and the deferred newline on the output. -/
theorem readOptionValue_step (o : Opt) (vals : OptionValues) (st : GTState)
    (l : String) (rest : List String) (fuel : Nat) (v : Value)
    (hl : st.lines = l :: rest)
    (hcoerce : coerceInput (o.default vals) (strTrim l) = .ok v)
    (hval : o.validate v = none) :
    readOptionValue o vals (fuel + 1) st =
      some (.ok v, ⟨rest, st.inErr, st.out ++ [printOptionText o, "\n"]⟩) := by
  simp only [readOptionValue, GTState.print, readStdin, hl, hcoerce, hval,
    List.append_assoc, List.singleton_append]

/-- C9: in interactive resolution of a single option, an empty input line
resolves the option to its (lazily resolved) default, and a non-empty
line is coerced to the type of the resolved default: accepted verbatim
(after whitespace trimming) for a string default, parsed with
`strconv.ParseBool`'s strict literal rules for a boolean default, parsed
with `strconv.Atoi`'s strict rules for an integer default — and the
result carried into the resolved mapping is the correctly typed `Value`,
not the raw string.  Each case assumes the option's validator accepts the
resulting value (otherwise the code re-prompts). -/
theorem c9_interactive_coercion (o : Opt) (vals : OptionValues) (st : GTState)
    (l : String) (rest : List String) (fuel : Nat)
    (hl : st.lines = l :: rest) :
    (strTrim l = "" → o.validate (o.default vals) = none →
      readOptionValue o vals (fuel + 1) st =
        some (.ok (o.default vals), ⟨rest, st.inErr, st.out ++ [printOptionText o, "\n"]⟩)) ∧
    (∀ s, o.default vals = .str s → strTrim l ≠ "" → o.validate (.str (strTrim l)) = none →
      readOptionValue o vals (fuel + 1) st =
        some (.ok (.str (strTrim l)),
          ⟨rest, st.inErr, st.out ++ [printOptionText o, "\n"]⟩)) ∧
    (∀ b b', o.default vals = .bool b → parseBool (strTrim l) = some b' →
      o.validate (.bool b') = none →
      readOptionValue o vals (fuel + 1) st =
        some (.ok (.bool b'), ⟨rest, st.inErr, st.out ++ [printOptionText o, "\n"]⟩)) ∧
    (∀ n n', o.default vals = .int n → atoi (strTrim l) = some n' →
      o.validate (.int n') = none →
      readOptionValue o vals (fuel + 1) st =
        some (.ok (.int n'), ⟨rest, st.inErr, st.out ++ [printOptionText o, "\n"]⟩)) := by
  refine ⟨?_, ?_, ?_, ?_⟩
  · intro hemp hval
    refine readOptionValue_step o vals st l rest fuel _ hl ?_ hval
    rw [hemp]
    rfl
  · intro s hdef hne hval
    refine readOptionValue_step o vals st l rest fuel _ hl ?_ hval
    simp only [coerceInput, hdef, hne, if_false]
  · intro b b' hdef hp hval
    have hne : strTrim l ≠ "" := by
      intro h0
      rw [h0] at hp
      exact Option.noConfusion ((rfl : parseBool "" = none).symm.trans hp)
    refine readOptionValue_step o vals st l rest fuel _ hl ?_ hval
    simp only [coerceInput, hdef, hne, if_false, hp]
  · intro n n' hdef hp hval
    have hne : strTrim l ≠ "" := by
      intro h0
      rw [h0] at hp
      exact Option.noConfusion ((rfl : atoi "" = none).symm.trans hp)
    refine readOptionValue_step o vals st l rest fuel _ hl ?_ hval
    simp only [coerceInput, hdef, hne, if_false, hp]

/-- C9 witness: a boolean option with default `true` and the input line
`"false"` resolves to the typed boolean `false`. -/
def w9Opt : Opt := ⟨"someOption", fun _ => .bool true, fun _ => none, [], [], []⟩

def w9St : GTState := ⟨["false"], none, []⟩

theorem c9_interactive_coercion_witness :
    readOptionValue w9Opt NewOptionValues 1 w9St =
      some (.ok (.bool false), ⟨[], none, [printOptionText w9Opt, "\n"]⟩) :=
  (c9_interactive_coercion w9Opt NewOptionValues w9St "false" [] 0 rfl).2.2.1
    true false rfl rfl rfl

/-! ## C8: dependency-gated options are skipped interactively -/

/-- Inserting under a different key leaves a lookup unchanged. -/
theorem lookup_insert_ne (m : OptionNameToValue) (kIns k : String) (v : Value)
    (h : kIns ≠ k) :
    (m.insert kIns v).lookup k = m.lookup k := by
  induction m with
  | nil =>
    simp only [OptionNameToValue.insert, OptionNameToValue.lookup, h, if_false]
  | cons pe rest ih =>
    obtain ⟨q, w⟩ := pe
    by_cases hq : q = kIns
    · subst hq
      simp only [OptionNameToValue.insert, if_true]
      have hqk : q ≠ k := h
      simp only [OptionNameToValue.lookup, hqk, if_false]
    · simp only [OptionNameToValue.insert, hq, if_false]
      by_cases hqk : q = k
      · simp only [OptionNameToValue.lookup, hqk, if_true]
      · simp only [OptionNameToValue.lookup, hqk, if_false]
        exact ih

/-- A non-displayable option is returned as `nil` with the state
untouched. -/
theorem loadOptionValueInteractively_skip (o : Opt) (vals : OptionValues) (fuel : Nat)
    (st : GTState) (h : o.shouldDisplay vals = false) :
    loadOptionValueInteractively o vals fuel st = some (none, st) := by
  simp only [loadOptionValueInteractively, h, Bool.not_false, if_true]

/-- The base-option loop splits over list append. -/
theorem processBaseOptions_append (xs ys : List Opt) (vals : OptionValues)
    (st : GTState) (fuel : Nat) :
    processBaseOptions (xs ++ ys) vals st fuel =
      match processBaseOptions xs vals st fuel with
      | none => none
      | some (v1, s1) => processBaseOptions ys v1 s1 fuel := by
  induction xs generalizing vals st with
  | nil => rfl
  | cons o rest ih =>
    rw [List.cons_append]
    simp only [processBaseOptions]
    cases loadOptionValueInteractively o vals fuel st with
    | none => rfl
    | some p =>
      obtain ⟨ov, st'⟩ := p
      cases ov with
      | none => exact ih vals st'
      | some v => exact ih _ st'

/-- The base loop never creates an entry for a name that none of its
options carries. -/
theorem processBaseOptions_lookup_none (os : List Opt) (vals : OptionValues)
    (st : GTState) (fuel : Nat) (v2 : OptionValues) (st2 : GTState) (k : String)
    (h : processBaseOptions os vals st fuel = some (v2, st2))
    (hk : vals.base.lookup k = none) (hno : ∀ o ∈ os, o.name ≠ k) :
    v2.base.lookup k = none := by
  induction os generalizing vals st with
  | nil =>
    simp only [processBaseOptions, Option.some.injEq, Prod.mk.injEq] at h
    rw [← h.1]
    exact hk
  | cons o rest ih =>
    simp only [processBaseOptions] at h
    cases hload : loadOptionValueInteractively o vals fuel st with
    | none => rw [hload] at h; exact Option.noConfusion h
    | some p =>
      obtain ⟨ov, st'⟩ := p
      rw [hload] at h
      cases ov with
      | none => exact ih vals st' h hk fun o' ho' => hno o' (List.mem_cons_of_mem o ho')
      | some v =>
        refine ih _ st' h ?_ fun o' ho' => hno o' (List.mem_cons_of_mem o ho')
        show (vals.base.insert o.name v).lookup k = none
        rw [lookup_insert_ne vals.base o.name k v (hno o (List.mem_cons_self o rest))]
        exact hk

/-- The base loop leaves the extensions map untouched. -/
theorem processBaseOptions_extensions (os : List Opt) (vals : OptionValues)
    (st : GTState) (fuel : Nat) (v2 : OptionValues) (st2 : GTState)
    (h : processBaseOptions os vals st fuel = some (v2, st2)) :
    v2.extensions = vals.extensions := by
  induction os generalizing vals st with
  | nil =>
    simp only [processBaseOptions, Option.some.injEq, Prod.mk.injEq] at h
    rw [← h.1]
  | cons o rest ih =>
    simp only [processBaseOptions] at h
    cases hload : loadOptionValueInteractively o vals fuel st with
    | none => rw [hload] at h; exact Option.noConfusion h
    | some p =>
      obtain ⟨ov, st'⟩ := p
      rw [hload] at h
      cases ov with
      | none => exact ih vals st' h
      | some v => exact ih ⟨vals.base.insert o.name v, vals.extensions⟩ st' h

/-- `extFind` after `extInsert`. -/
theorem extFind_extInsert (m : List (String × OptionNameToValue)) (kIns c : String)
    (mv : OptionNameToValue) :
    extFind (extInsert m kIns mv) c = if kIns = c then some mv else extFind m c := by
  induction m with
  | nil => rfl
  | cons pe rest ih =>
    obtain ⟨q, w⟩ := pe
    by_cases hq : q = kIns
    · subst hq
      simp only [extInsert, if_true]
      by_cases hc : q = c
      · simp only [extFind, hc, if_true]
      · simp only [extFind, hc, if_false]
    · simp only [extInsert, hq, if_false]
      by_cases hc : q = c
      · subst hc
        have hkc : kIns ≠ q := fun hcc => hq hcc.symm
        simp only [extFind, if_true, hkc, if_false]
      · simp only [extFind, hc, if_false]
        exact ih

/-- The per-category loop leaves the base map untouched. -/
theorem processCatOptions_base (cat : String) (os : List Opt) (vals : OptionValues)
    (st : GTState) (fuel : Nat) (v2 : OptionValues) (st2 : GTState)
    (h : processCatOptions cat os vals st fuel = some (v2, st2)) :
    v2.base = vals.base := by
  induction os generalizing vals st with
  | nil =>
    simp only [processCatOptions, Option.some.injEq, Prod.mk.injEq] at h
    rw [← h.1]
  | cons o rest ih =>
    simp only [processCatOptions] at h
    cases hload : loadOptionValueInteractively o vals fuel st with
    | none => rw [hload] at h; exact Option.noConfusion h
    | some p =>
      obtain ⟨ov, st'⟩ := p
      rw [hload] at h
      cases ov with
      | none => exact ih vals st' h
      | some v =>
        exact ih ⟨vals.base,
          extInsert vals.extensions cat ((vals.extLookup cat).insert o.name v)⟩ st' h

/-- The per-category loop never creates a nested entry under a name that
none of its options carries. -/
theorem processCatOptions_extLookup_none (cat : String) (os : List Opt)
    (vals : OptionValues) (st : GTState) (fuel : Nat) (v2 : OptionValues)
    (st2 : GTState) (k : String)
    (h : processCatOptions cat os vals st fuel = some (v2, st2))
    (hk : ∀ c, (vals.extLookup c).lookup k = none)
    (hno : ∀ o ∈ os, o.name ≠ k) :
    ∀ c, (v2.extLookup c).lookup k = none := by
  induction os generalizing vals st with
  | nil =>
    simp only [processCatOptions, Option.some.injEq, Prod.mk.injEq] at h
    rw [← h.1]
    exact hk
  | cons o rest ih =>
    simp only [processCatOptions] at h
    cases hload : loadOptionValueInteractively o vals fuel st with
    | none => rw [hload] at h; exact Option.noConfusion h
    | some p =>
      obtain ⟨ov, st'⟩ := p
      rw [hload] at h
      cases ov with
      | none => exact ih vals st' h hk fun o' ho' => hno o' (List.mem_cons_of_mem o ho')
      | some v =>
        refine ih ⟨vals.base,
          extInsert vals.extensions cat ((vals.extLookup cat).insert o.name v)⟩ st' h ?_
          fun o' ho' => hno o' (List.mem_cons_of_mem o ho')
        intro c
        show (OptionValues.extLookup
          ⟨vals.base, extInsert vals.extensions cat ((vals.extLookup cat).insert o.name v)⟩
          c).lookup k = none
        unfold OptionValues.extLookup
        rw [extFind_extInsert]
        by_cases hc : cat = c
        · simp only [hc, if_true]
          rw [← hc, lookup_insert_ne _ o.name k v (hno o (List.mem_cons_self o rest))]
          exact hk cat
        · simp only [hc, if_false]
          exact hk c

/-- The extension-category loop leaves the base map untouched. -/
theorem processCategories_base (cats : List Category) (vals : OptionValues)
    (st : GTState) (fuel : Nat) (v2 : OptionValues) (st2 : GTState)
    (h : processCategories cats vals st fuel = some (v2, st2)) :
    v2.base = vals.base := by
  induction cats generalizing vals st with
  | nil =>
    simp only [processCategories, Option.some.injEq, Prod.mk.injEq] at h
    rw [← h.1]
  | cons cat rest ih =>
    simp only [processCategories] at h
    cases hload : processCatOptions cat.name cat.options
        { vals with extensions := extInsert vals.extensions cat.name [] }
        (st.print ("== " ++ cat.name ++ " ==")) fuel with
    | none => rw [hload] at h; exact Option.noConfusion h
    | some p =>
      obtain ⟨vmid, stmid⟩ := p
      rw [hload] at h
      have hmid := processCatOptions_base cat.name cat.options _ _ fuel vmid stmid hload
      rw [ih vmid stmid h, hmid]

/-- The extension-category loop never creates a nested entry under a name
that none of the schema's extension options carries. -/
theorem processCategories_extLookup_none (cats : List Category) (vals : OptionValues)
    (st : GTState) (fuel : Nat) (v2 : OptionValues) (st2 : GTState) (k : String)
    (h : processCategories cats vals st fuel = some (v2, st2))
    (hk : ∀ c, (vals.extLookup c).lookup k = none)
    (hno : ∀ cat ∈ cats, ∀ o ∈ cat.options, o.name ≠ k) :
    ∀ c, (v2.extLookup c).lookup k = none := by
  induction cats generalizing vals st with
  | nil =>
    simp only [processCategories, Option.some.injEq, Prod.mk.injEq] at h
    rw [← h.1]
    exact hk
  | cons cat rest ih =>
    simp only [processCategories] at h
    cases hload : processCatOptions cat.name cat.options
        { vals with extensions := extInsert vals.extensions cat.name [] }
        (st.print ("== " ++ cat.name ++ " ==")) fuel with
    | none => rw [hload] at h; exact Option.noConfusion h
    | some p =>
      obtain ⟨vmid, stmid⟩ := p
      rw [hload] at h
      have hk1 : ∀ c, ((OptionValues.mk vals.base
          (extInsert vals.extensions cat.name [])).extLookup c).lookup k = none := by
        intro c
        unfold OptionValues.extLookup
        rw [extFind_extInsert]
        by_cases hc : cat.name = c
        · simp only [hc, if_true]
          rfl
        · simp only [hc, if_false]
          exact hk c
      have hmid := processCatOptions_extLookup_none cat.name cat.options _ _ fuel
        vmid stmid k hload hk1 (hno cat (List.mem_cons_self cat rest))
      exact ih vmid stmid h hmid fun c hc o' ho' =>
        hno c (List.mem_cons_of_mem cat hc) o' ho'

/-- The per-category inner loop splits over list append. -/
theorem processCatOptions_append (cat : String) (xs ys : List Opt) (vals : OptionValues)
    (st : GTState) (fuel : Nat) :
    processCatOptions cat (xs ++ ys) vals st fuel =
      match processCatOptions cat xs vals st fuel with
      | none => none
      | some (v1, s1) => processCatOptions cat ys v1 s1 fuel := by
  induction xs generalizing vals st with
  | nil => rfl
  | cons o rest ih =>
    rw [List.cons_append]
    simp only [processCatOptions]
    cases loadOptionValueInteractively o vals fuel st with
    | none => rfl
    | some p =>
      obtain ⟨ov, st'⟩ := p
      cases ov with
      | none => exact ih vals st'
      | some v =>
        exact ih ⟨vals.base,
          extInsert vals.extensions cat ((vals.extLookup cat).insert o.name v)⟩ st'

/-- The extension-category loop splits over list append. -/
theorem processCategories_append (xs ys : List Category) (vals : OptionValues)
    (st : GTState) (fuel : Nat) :
    processCategories (xs ++ ys) vals st fuel =
      match processCategories xs vals st fuel with
      | none => none
      | some (v1, s1) => processCategories ys v1 s1 fuel := by
  induction xs generalizing vals st with
  | nil => rfl
  | cons cat rest ih =>
    rw [List.cons_append]
    simp only [processCategories]
    cases processCatOptions cat.name cat.options
        { vals with extensions := extInsert vals.extensions cat.name [] }
        (st.print ("== " ++ cat.name ++ " ==")) fuel with
    | none => rfl
    | some p =>
      obtain ⟨vmid, stmid⟩ := p
      exact ih vmid stmid

/-- A full interactive run creates no entry — base or nested — under a
name that no option of the schema carries. -/
theorem loadConfig_lookup_none (opts : Options) (st : GTState) (fuel : Nat)
    (v2 : OptionValues) (st2 : GTState) (k : String)
    (h : LoadConfigValuesInteractively opts st fuel = some (v2, st2))
    (hno : ∀ o ∈ opts.base, o.name ≠ k)
    (hnoe : ∀ cat ∈ opts.extensions, ∀ o ∈ cat.options, o.name ≠ k) :
    v2.base.lookup k = none ∧ ∀ c, (v2.extLookup c).lookup k = none := by
  simp only [LoadConfigValuesInteractively] at h
  cases hb : processBaseOptions opts.base NewOptionValues (st.print "banner") fuel with
  | none => rw [hb] at h; exact Option.noConfusion h
  | some pb =>
    obtain ⟨vb, stb⟩ := pb
    rw [hb] at h
    have hvbbase : vb.base.lookup k = none :=
      processBaseOptions_lookup_none opts.base NewOptionValues (st.print "banner") fuel
        vb stb k hb rfl hno
    have hvbext : vb.extensions = NewOptionValues.extensions :=
      processBaseOptions_extensions opts.base NewOptionValues (st.print "banner") fuel
        vb stb hb
    have hvbl : ∀ c, (vb.extLookup c).lookup k = none := by
      intro c
      unfold OptionValues.extLookup
      rw [hvbext]
      rfl
    refine ⟨?_, ?_⟩
    · rw [processCategories_base opts.extensions vb (stb.print "extensions-intro") fuel
        v2 st2 h]
      exact hvbbase
    · exact processCategories_extLookup_none opts.extensions vb
        (stb.print "extensions-intro") fuel v2 st2 k h hvbl hnoe

/-- C8: in interactive resolution, an option whose dependency gate is not
met when its turn comes is skipped entirely, whether it is a base option
or an extension-category option: the whole run is indistinguishable from
a run of the same schema without that option (so no prompt or display
text for it is ever written to the output stream), and — as long as no
other option shares its name — the resolved mapping contains no entry
under its name, neither in the base map nor in any extension category's
nested map.  The first conjunct covers a gated option in the base list,
the second a gated option inside an extension category, reached through
the base loop, the earlier categories, and the category's earlier
options. -/
theorem c8_dependency_gate_skip :
    (∀ (pre post : List Opt) (o : Opt) (exts : List Category) (st : GTState)
      (fuel : Nat) (v1 : OptionValues) (st1 : GTState),
      processBaseOptions pre NewOptionValues (st.print "banner") fuel = some (v1, st1) →
      o.shouldDisplay v1 = false →
      LoadConfigValuesInteractively ⟨pre ++ o :: post, exts⟩ st fuel =
        LoadConfigValuesInteractively ⟨pre ++ post, exts⟩ st fuel ∧
      ((∀ o' ∈ pre ++ post, o'.name ≠ o.name) →
        (∀ cat ∈ exts, ∀ o' ∈ cat.options, o'.name ≠ o.name) →
        ∀ v2 st2, LoadConfigValuesInteractively ⟨pre ++ o :: post, exts⟩ st fuel =
          some (v2, st2) →
        v2.base.lookup o.name = none ∧ ∀ c, (v2.extLookup c).lookup o.name = none)) ∧
    (∀ (bases : List Opt) (preCats postCats : List Category) (catName : String)
      (pre post : List Opt) (o : Opt) (st : GTState) (fuel : Nat)
      (vb : OptionValues) (stb : GTState) (vc : OptionValues) (stc : GTState)
      (v1 : OptionValues) (st1 : GTState),
      processBaseOptions bases NewOptionValues (st.print "banner") fuel = some (vb, stb) →
      processCategories preCats vb (stb.print "extensions-intro") fuel = some (vc, stc) →
      processCatOptions catName pre ⟨vc.base, extInsert vc.extensions catName []⟩
        (stc.print ("== " ++ catName ++ " ==")) fuel = some (v1, st1) →
      o.shouldDisplay v1 = false →
      LoadConfigValuesInteractively
          ⟨bases, preCats ++ ⟨catName, pre ++ o :: post⟩ :: postCats⟩ st fuel =
        LoadConfigValuesInteractively
          ⟨bases, preCats ++ ⟨catName, pre ++ post⟩ :: postCats⟩ st fuel ∧
      ((∀ o' ∈ bases, o'.name ≠ o.name) →
        (∀ cat ∈ preCats ++ ⟨catName, pre ++ post⟩ :: postCats,
          ∀ o' ∈ cat.options, o'.name ≠ o.name) →
        ∀ v2 st2, LoadConfigValuesInteractively
          ⟨bases, preCats ++ ⟨catName, pre ++ o :: post⟩ :: postCats⟩ st fuel =
          some (v2, st2) →
        v2.base.lookup o.name = none ∧ ∀ c, (v2.extLookup c).lookup o.name = none)) := by
  constructor
  · intro pre post o exts st fuel v1 st1 h1 h2
    have hskip := loadOptionValueInteractively_skip o v1 fuel st1 h2
    have heq : LoadConfigValuesInteractively ⟨pre ++ o :: post, exts⟩ st fuel =
        LoadConfigValuesInteractively ⟨pre ++ post, exts⟩ st fuel := by
      simp only [LoadConfigValuesInteractively, processBaseOptions_append, h1]
      simp only [processBaseOptions, hskip]
    refine ⟨heq, ?_⟩
    intro huniq hcatuniq v2 st2 hrun
    rw [heq] at hrun
    exact loadConfig_lookup_none ⟨pre ++ post, exts⟩ st fuel v2 st2 o.name hrun
      huniq hcatuniq
  · intro bases preCats postCats catName pre post o st fuel vb stb vc stc v1 st1
      hb hc hcat h2
    have hskip := loadOptionValueInteractively_skip o v1 fuel st1 h2
    have heq : LoadConfigValuesInteractively
        ⟨bases, preCats ++ ⟨catName, pre ++ o :: post⟩ :: postCats⟩ st fuel =
        LoadConfigValuesInteractively
        ⟨bases, preCats ++ ⟨catName, pre ++ post⟩ :: postCats⟩ st fuel := by
      simp only [LoadConfigValuesInteractively, hb]
      rw [processCategories_append, processCategories_append, hc]
      simp only [processCategories, processCatOptions_append, hcat]
      simp only [processCatOptions, hskip]
    refine ⟨heq, ?_⟩
    intro huniq hcatuniq v2 st2 hrun
    rw [heq] at hrun
    exact loadConfig_lookup_none
      ⟨bases, preCats ++ ⟨catName, pre ++ post⟩ :: postCats⟩ st fuel v2 st2 o.name
      hrun huniq hcatuniq

/-- C8 witness data: mirrors the repository's test — a boolean option
that resolves to `false`, a base option depending on it, and an
extension category whose first option resolves to `false` and whose
second option depends on that one. -/
def w8A : Opt := ⟨"someOption", fun _ => .bool false, fun _ => none, [], [], []⟩

def w8B : Opt :=
  ⟨"dependentOption", fun _ => .bool false, fun _ => none, ["someOption"], [], []⟩

def w8C : Opt := ⟨"catOption", fun _ => .bool false, fun _ => none, [], [], []⟩

def w8D : Opt :=
  ⟨"dependentCatOption", fun _ => .bool false, fun _ => none, ["catOption"], [], []⟩

def w8St : GTState := ⟨["", ""], none, []⟩

theorem c8_dependency_gate_skip_witness :
    (LoadConfigValuesInteractively ⟨[w8A, w8B], []⟩ w8St 1 =
      LoadConfigValuesInteractively ⟨[w8A], []⟩ w8St 1) ∧
    (LoadConfigValuesInteractively ⟨[w8A], [⟨"testcat", [w8C, w8D]⟩]⟩ w8St 1 =
      LoadConfigValuesInteractively ⟨[w8A], [⟨"testcat", [w8C]⟩]⟩ w8St 1) :=
  ⟨(c8_dependency_gate_skip.1 [w8A] [] w8B [] w8St 1
      ⟨[("someOption", .bool false)], []⟩
      ⟨[""], none, ["banner", printOptionText w8A, "\n"]⟩ rfl rfl).1,
   (c8_dependency_gate_skip.2 [w8A] [] [] "testcat" [w8C] [] w8D w8St 1
      ⟨[("someOption", .bool false)], []⟩
      ⟨[""], none, ["banner", printOptionText w8A, "\n"]⟩
      ⟨[("someOption", .bool false)], []⟩
      ⟨[""], none, ["banner", printOptionText w8A, "\n", "extensions-intro"]⟩
      ⟨[("someOption", .bool false)], [("testcat", [("catOption", .bool false)])]⟩
      ⟨[], none, ["banner", printOptionText w8A, "\n", "extensions-intro",
        "== testcat ==", printOptionText w8C, "\n"]⟩
      rfl rfl rfl rfl).1⟩

/-! ## C10: exhausted input resolves the remaining options to defaults -/

/-- `coerceInput` on an empty line yields the default. -/
theorem coerceInput_empty (dv : Value) : coerceInput dv "" = .ok dv := rfl

/-- With the input exhausted and no scanner error, one `readOptionValue`
pass resolves the option to its default (provided the validator accepts
the default, otherwise the Go code re-prompts forever). -/
theorem readOptionValue_exhausted (o : Opt) (vals : OptionValues) (st : GTState)
    (fuel : Nat) (hl : st.lines = []) (he : st.inErr = none)
    (hv : o.validate (o.default vals) = none) :
    readOptionValue o vals (fuel + 1) st =
      some (.ok (o.default vals), ⟨[], none, st.out ++ [printOptionText o, "\n"]⟩) := by
  simp only [readOptionValue, GTState.print, readStdin, hl, he, coerceInput_empty, hv,
    List.append_assoc, List.singleton_append]

/-- With the input exhausted, a displayable option resolves to its
default in one retry-loop iteration. -/
theorem loadOption_exhausted_display (o : Opt) (vals : OptionValues) (fuel : Nat)
    (st : GTState) (hl : st.lines = []) (he : st.inErr = none)
    (hv : o.validate (o.default vals) = none) (hd : o.shouldDisplay vals = true) :
    loadOptionValueInteractively o vals (fuel + 1) st =
      some (some (o.default vals), ⟨[], none, st.out ++ [printOptionText o, "\n"]⟩) := by
  simp only [loadOptionValueInteractively, hd, Bool.not_true, Bool.false_eq_true, if_false,
    retryOption, readOptionValue_exhausted o vals st fuel hl he hv]

/-- The resolution the claim describes for the base options: every
displayable option gets its (lazily resolved) default, options whose
dependency gate fails are skipped. -/
def resolveDefaultsBase : List Opt → OptionValues → OptionValues
  | [], vals => vals
  | o :: rest, vals =>
    if o.shouldDisplay vals then
      resolveDefaultsBase rest ⟨vals.base.insert o.name (o.default vals), vals.extensions⟩
    else resolveDefaultsBase rest vals

/-- The same default resolution for the options of one extension
category. -/
def resolveDefaultsCat (cat : String) : List Opt → OptionValues → OptionValues
  | [], vals => vals
  | o :: rest, vals =>
    if o.shouldDisplay vals then
      resolveDefaultsCat cat rest
        ⟨vals.base, extInsert vals.extensions cat
          ((vals.extLookup cat).insert o.name (o.default vals))⟩
    else resolveDefaultsCat cat rest vals

/-- The default resolution over all extension categories (each category's
nested map is created even when empty, as the interactive loop does). -/
def resolveDefaultsCats : List Category → OptionValues → OptionValues
  | [], vals => vals
  | cat :: rest, vals =>
    resolveDefaultsCats rest
      (resolveDefaultsCat cat.name cat.options
        ⟨vals.base, extInsert vals.extensions cat.name []⟩)

theorem processBase_exhausted (os : List Opt) (vals : OptionValues) (st : GTState)
    (hl : st.lines = []) (he : st.inErr = none)
    (hv : ∀ o ∈ os, ∀ vs, o.validate (o.default vs) = none) :
    ∃ st2, processBaseOptions os vals st 1 = some (resolveDefaultsBase os vals, st2) ∧
      st2.lines = [] ∧ st2.inErr = none := by
  induction os generalizing vals st with
  | nil => exact ⟨st, rfl, hl, he⟩
  | cons o rest ih =>
    by_cases hd : o.shouldDisplay vals = true
    · have hro := loadOption_exhausted_display o vals 0 st hl he
        (hv o (List.mem_cons_self o rest) vals) hd
      simp only [processBaseOptions, hro, resolveDefaultsBase, hd, if_true]
      exact ih ⟨vals.base.insert o.name (o.default vals), vals.extensions⟩
        ⟨[], none, st.out ++ [printOptionText o, "\n"]⟩ rfl rfl
        fun o' ho' => hv o' (List.mem_cons_of_mem o ho')
    · rw [Bool.not_eq_true] at hd
      have hro := loadOptionValueInteractively_skip o vals 1 st hd
      simp only [processBaseOptions, hro, resolveDefaultsBase, hd, Bool.false_eq_true,
        if_false]
      exact ih vals st hl he fun o' ho' => hv o' (List.mem_cons_of_mem o ho')

theorem processCat_exhausted (cat : String) (os : List Opt) (vals : OptionValues)
    (st : GTState) (hl : st.lines = []) (he : st.inErr = none)
    (hv : ∀ o ∈ os, ∀ vs, o.validate (o.default vs) = none) :
    ∃ st2, processCatOptions cat os vals st 1 =
      some (resolveDefaultsCat cat os vals, st2) ∧ st2.lines = [] ∧ st2.inErr = none := by
  induction os generalizing vals st with
  | nil => exact ⟨st, rfl, hl, he⟩
  | cons o rest ih =>
    by_cases hd : o.shouldDisplay vals = true
    · have hro := loadOption_exhausted_display o vals 0 st hl he
        (hv o (List.mem_cons_self o rest) vals) hd
      simp only [processCatOptions, hro, resolveDefaultsCat, hd, if_true]
      exact ih ⟨vals.base, extInsert vals.extensions cat
          ((vals.extLookup cat).insert o.name (o.default vals))⟩
        ⟨[], none, st.out ++ [printOptionText o, "\n"]⟩ rfl rfl
        fun o' ho' => hv o' (List.mem_cons_of_mem o ho')
    · rw [Bool.not_eq_true] at hd
      have hro := loadOptionValueInteractively_skip o vals 1 st hd
      simp only [processCatOptions, hro, resolveDefaultsCat, hd, Bool.false_eq_true,
        if_false]
      exact ih vals st hl he fun o' ho' => hv o' (List.mem_cons_of_mem o ho')

theorem processCats_exhausted (cats : List Category) (vals : OptionValues) (st : GTState)
    (hl : st.lines = []) (he : st.inErr = none)
    (hv : ∀ cat ∈ cats, ∀ o ∈ cat.options, ∀ vs, o.validate (o.default vs) = none) :
    ∃ st2, processCategories cats vals st 1 =
      some (resolveDefaultsCats cats vals, st2) ∧ st2.lines = [] ∧ st2.inErr = none := by
  induction cats generalizing vals st with
  | nil => exact ⟨st, rfl, hl, he⟩
  | cons cat rest ih =>
    obtain ⟨stm, hm, hlm, hem⟩ := processCat_exhausted cat.name cat.options
      ⟨vals.base, extInsert vals.extensions cat.name []⟩
      (st.print ("== " ++ cat.name ++ " ==")) hl he
      (hv cat (List.mem_cons_self cat rest))
    obtain ⟨st2, h2, hl2, he2⟩ := ih
      (resolveDefaultsCat cat.name cat.options
        ⟨vals.base, extInsert vals.extensions cat.name []⟩) stm hlm hem
      (fun c hc => hv c (List.mem_cons_of_mem cat hc))
    refine ⟨st2, ?_, hl2, he2⟩
    simp only [processCategories, hm, h2, resolveDefaultsCats]

/-- C10: when the interactive input stream is exhausted with no scanner
error, reading a line returns the empty string with no error, and in
consequence the whole interactive resolution — assuming every option's
validator accepts its default, else the Go code re-prompts forever —
returns normally with every remaining displayable option silently
resolved to its (lazily resolved) default value, instead of the resolver
reporting a read failure. -/
theorem c10_exhausted_input_defaults (opts : Options) (st : GTState)
    (hl : st.lines = []) (he : st.inErr = none)
    (hv : ∀ o ∈ opts.base, ∀ vs, o.validate (o.default vs) = none)
    (hve : ∀ cat ∈ opts.extensions, ∀ o ∈ cat.options, ∀ vs,
      o.validate (o.default vs) = none) :
    readStdin st = (.ok "", st) ∧
    ∃ st2, LoadConfigValuesInteractively opts st 1 =
      some (resolveDefaultsCats opts.extensions
        (resolveDefaultsBase opts.base NewOptionValues), st2) ∧
      st2.lines = [] ∧ st2.inErr = none := by
  constructor
  · simp only [readStdin, hl, he]
  · obtain ⟨st1, h1, hl1, he1⟩ := processBase_exhausted opts.base NewOptionValues
      (st.print "banner") hl he hv
    obtain ⟨st2, h2, hl2, he2⟩ := processCats_exhausted opts.extensions
      (resolveDefaultsBase opts.base NewOptionValues) (st1.print "extensions-intro")
      hl1 he1 hve
    refine ⟨st2, ?_, hl2, he2⟩
    simp only [LoadConfigValuesInteractively, h1, h2]

/-- C10 witness data: one base option and one single-option extension
category, run against an exhausted input stream. -/
def w10Base : Opt := ⟨"projectSlug", fun _ => .str "slug", fun _ => none, [], [], []⟩

def w10Ext : Opt := ⟨"grpcGateway", fun _ => .bool true, fun _ => none, [], [], []⟩

def w10Opts : Options := ⟨[w10Base], [⟨"grpc", [w10Ext]⟩]⟩

theorem c10_exhausted_input_defaults_witness :
    readStdin ⟨[], none, []⟩ = (.ok "", ⟨[], none, []⟩) ∧
    ∃ st2, LoadConfigValuesInteractively w10Opts ⟨[], none, []⟩ 1 =
      some (resolveDefaultsCats w10Opts.extensions
        (resolveDefaultsBase w10Opts.base NewOptionValues), st2) ∧
      st2.lines = [] ∧ st2.inErr = none := by
  refine c10_exhausted_input_defaults w10Opts ⟨[], none, []⟩ rfl rfl ?_ ?_
  · intro o ho vs
    simp only [w10Opts, List.mem_singleton] at ho
    subst ho
    rfl
  · intro cat hcat o ho vs
    simp only [w10Opts, List.mem_singleton] at hcat
    subst hcat
    simp only [List.mem_singleton] at ho
    subst ho
    rfl

end GoTpl
